import Mathlib

/-!
Verification of the software FEAT_PAuth implementation (PRINCE / Modified
PRINCE cipher, Apple KDF, and the AddPAC / Auth / Strip pointer operations)
from tools/lldbmacros/ptrauth.

The Python code operates on arbitrary-precision integers; all values that
matter are 64-bit words, modelled here as `Nat` with explicit bit operations.
`x & ~mask` on non-negative Python integers is modelled by
`bitClear x mask = x ^^^ (x &&& mask)`, which agrees with it on all
non-negative inputs.  A Python expression that can raise (a negative shift
count in `_BitMask`) is modelled by an `Option`-returning variant; the total
variants are proved to agree with the checked ones on the non-raising domain.
-/

set_option maxRecDepth 8000

namespace Ptrauth

/-- Diffusion rows of the PRINCE M-prime matrix (prince.py, `M_PRIME`). -/
def M_PRIME : List Nat := [
  0x0888000000000000, 0x4044000000000000, 0x2202000000000000, 0x1110000000000000,
  0x8880000000000000, 0x0444000000000000, 0x2022000000000000, 0x1101000000000000,
  0x8808000000000000, 0x4440000000000000, 0x0222000000000000, 0x1011000000000000,
  0x8088000000000000, 0x4404000000000000, 0x2220000000000000, 0x0111000000000000,
  0x0000888000000000, 0x0000044400000000, 0x0000202200000000, 0x0000110100000000,
  0x0000880800000000, 0x0000444000000000, 0x0000022200000000, 0x0000101100000000,
  0x0000808800000000, 0x0000440400000000, 0x0000222000000000, 0x0000011100000000,
  0x0000088800000000, 0x0000404400000000, 0x0000220200000000, 0x0000111000000000,
  0x0000000088800000, 0x0000000004440000, 0x0000000020220000, 0x0000000011010000,
  0x0000000088080000, 0x0000000044400000, 0x0000000002220000, 0x0000000010110000,
  0x0000000080880000, 0x0000000044040000, 0x0000000022200000, 0x0000000001110000,
  0x0000000008880000, 0x0000000040440000, 0x0000000022020000, 0x0000000011100000,
  0x0000000000000888, 0x0000000000004044, 0x0000000000002202, 0x0000000000001110,
  0x0000000000008880, 0x0000000000000444, 0x0000000000002022, 0x0000000000001101,
  0x0000000000008808, 0x0000000000004440, 0x0000000000000222, 0x0000000000001011,
  0x0000000000008088, 0x0000000000004404, 0x0000000000002220, 0x0000000000000111]

/-- The standard PRINCE round-constant table (prince.py, `RC`). -/
def RC : List Nat := [
  0x0000000000000000, 0x13198a2e03707344, 0xa4093822299f31d0, 0x082efa98ec4e6c89,
  0x452821e638d01377, 0xbe5466cf34e90c6c, 0x7ef84f78fd955cb1, 0x85840851f1ac43aa,
  0xc882d32f25323c54, 0x64a51195e0e3610d, 0xd3b5a399ca0c2399, 0xc0ac29b7c97c50dd]

/-- Apple's round-constant table (prince.py, `RC_Apple`). -/
def RC_Apple : List Nat := [
  0x0000000000000000, 0x13198a2e03707344, 0xa4093822299f31d0, 0x082efa98ec4e6c89,
  0x452821e638d01377, 0xbe5466cf34e90c6c, 0xc0ac29b7c97c50dd, 0x3f84d5b5b5470917,
  0x9216d5d98979fb1b, 0xd1310ba698dfb5ac, 0x2ffd72dbd01adfb7, 0xb8e1afed6a267e97]

/-- The PRINCE S-box table (prince.py, `S`). -/
def S : List Nat := [0xb, 0xf, 0x3, 0x2, 0xa, 0xc, 0x9, 0x1, 0x6, 0x7, 0x8, 0x0, 0xe, 0x5, 0xd, 0x4]

/-- The PRINCE shift-rows nibble permutation (prince.py, `SR`). -/
def SR : List Nat := [0, 5, 10, 15, 4, 9, 14, 3, 8, 13, 2, 7, 12, 1, 6, 11]

/-- Shared recursion of `s` and `s_inv` (prince.py): the loop
`for i in range(0, 64, 4): ret |= f((state >> i) & 0b1111) << i`,
with `n` counting nibbles, so the Python shift `i` is `4*n` here. -/
def subAux (f : Nat → Nat) (state : Nat) : Nat → Nat
  | 0 => 0
  | n+1 => subAux f state n ||| (f ((state >>> (4*n)) &&& 0b1111) <<< (4*n))

/-- The S-box layer (prince.py, `s`): `ret |= S[nybble] << i` per nibble. -/
def s (state : Nat) : Nat := subAux (fun v => S.getD v 0) state 16

/-- The inverse S-box layer (prince.py, `s_inv`): `ret |= S.index(nybble) << i`. -/
def s_inv (state : Nat) : Nat := subAux (fun v => S.indexOf v) state 16

/-- prince.py `extract_nybble`: `(val >> ((15 - i) * 4)) & 0b1111`. -/
def extract_nybble (val i : Nat) : Nat := (val >>> ((15 - i) * 4)) &&& 0b1111

/-- prince.py `set_nybble`: `val << ((15 - i) * 4)`. -/
def set_nybble (val i : Nat) : Nat := val <<< ((15 - i) * 4)

/-- Shared recursion of `sr` and `sr_inv` (prince.py): the loop
`for i in range(16): ret |= set_nybble(extract_nybble(state, perm[i]), i)`. -/
def srAux (perm : List Nat) (state : Nat) : Nat → Nat
  | 0 => 0
  | n+1 => srAux perm state n ||| set_nybble (extract_nybble state (perm.getD n 0)) n

/-- The shift-rows permutation (prince.py, `sr`). -/
def sr (state : Nat) : Nat := srAux SR state 16

/-- The pointwise inverse of `SR`; entry `i` is the Python `SR.index(i)`
computed inside `sr_inv`'s loop. -/
def SR_inv : List Nat := (List.range 16).map (fun i => SR.indexOf i)

/-- The inverse shift-rows permutation (prince.py, `sr_inv`). -/
def sr_inv (state : Nat) : Nat := srAux SR_inv state 16

/-- Recursion of `m_prime` (prince.py): the loop
`for i in range(0, 64): ret ^= ((state >> (63-i)) & 1) * M_PRIME[i]`. -/
def mPrimeAux (state : Nat) : Nat → Nat
  | 0 => 0
  | n+1 => mPrimeAux state n ^^^ (((state >>> (63 - n)) &&& 1) * M_PRIME.getD n 0)

/-- The GF(2)-linear diffusion layer (prince.py, `m_prime`). -/
def m_prime (state : Nat) : Nat := mPrimeAux state 64

/-- prince.py `m`: `m_prime` then `sr`. -/
def m (state : Nat) : Nat := sr (m_prime state)

/-- prince.py `m_inv`: `sr_inv` then `m_prime`. -/
def m_inv (state : Nat) : Nat := m_prime (sr_inv state)

/-- The middle layer of `prince_core` (prince.py lines 195-197):
substitute, non-permuted diffusion, unsubstitute. -/
def middle (state : Nat) : Nat := s_inv (m_prime (s state))

/-- One forward round of `prince_core` (loop over `range(1, 6)`):
`state = s(state); state = m(state); state ^= rc[i]; state ^= k1`. -/
def fRound (k1 : Nat) (rc : List Nat) (i state : Nat) : Nat := (m (s state) ^^^ rc.getD i 0) ^^^ k1

/-- One backward round of `prince_core` (loop over `range(6, 11)`):
`state ^= k1; state ^= rc[i]; state = m_inv(state); state = s_inv(state)`. -/
def bRound (k1 : Nat) (rc : List Nat) (i state : Nat) : Nat := s_inv (m_inv ((state ^^^ k1) ^^^ rc.getD i 0))

/-- The unkeyed PRINCE core (prince.py, `prince_core`). -/
def prince_core (state k1 : Nat) (rc : List Nat) : Nat :=
  let st0 := (state ^^^ k1) ^^^ rc.getD 0 0
  let st1 := (List.range' 1 5).foldl (fun st i => fRound k1 rc i st) st0
  let st2 := middle st1
  let st3 := (List.range' 6 5).foldl (fun st i => bRound k1 rc i st) st2
  (st3 ^^^ rc.getD 11 0) ^^^ k1

/-- The whitening-key derivation used by `prince` (prince.py lines 212-213),
`k0_inv = ((k0 >> 1) | ((k0 & 1) << 63)) ^ (k0 >> 63)`; this is the
"rotate/XOR construction" the specification calls `complement(k0)`. -/
def complement (k0 : Nat) : Nat := ((k0 >>> 1) ||| ((k0 &&& 1) <<< 63)) ^^^ (k0 >>> 63)

/-- The keyed PRINCE cipher (prince.py, `prince`): whiten in with `k0`,
run the core with `k1`, whiten out with `complement k0`. -/
def prince (val k0 k1 : Nat) (rc : List Nat) : Nat :=
  prince_core (val ^^^ k0) k1 rc ^^^ complement k0

/-- Apple's Modified PRINCE (prince.py, `modified_prince`). -/
def modified_prince (val k0 k1 modifier : Nat) : Nat := prince val k0 (k1 ^^^ modifier) RC_Apple

/-- Model of Python `x & ~mask` on non-negative integers. -/
def bitClear (x mask : Nat) : Nat := x ^^^ (x &&& mask)

/-- feat_pauth.py `_BitMask` on its non-raising domain
(`bit_from ≤ bit_to + 1`): `((1 << (bit_to - bit_from + 1)) - 1) << bit_from`. -/
def _BitMask (bit_from bit_to : Nat) : Nat := ((1 <<< (bit_to + 1 - bit_from)) - 1) <<< bit_from

/-- feat_pauth.py `_BitMask` with the raising behaviour made explicit:
when `bit_to - bit_from + 1` is negative, Python's `1 << n` raises
ValueError, modelled as `none`. -/
def _BitMaskChk (bit_from bit_to : Nat) : Option Nat :=
  if bit_from ≤ bit_to + 1 then some (_BitMask bit_from bit_to) else none

/-- feat_pauth.py `_PACMask` on its non-raising domain:
`_BitMask(bottom_pac_bit, 54)`, plus `_BitMask(56, 63)` when not `tbi`. -/
def _PACMask (bottom_pac_bit : Nat) (tbi : Bool) : Nat :=
  if tbi then _BitMask bottom_pac_bit 54 else _BitMask bottom_pac_bit 54 ||| _BitMask 56 63

/-- feat_pauth.py `_PACMask` with the raising behaviour of `_BitMask`
propagated. -/
def _PACMaskChk (bottom_pac_bit : Nat) (tbi : Bool) : Option Nat :=
  match _BitMaskChk bottom_pac_bit 54 with
  | none => none
  | some r => if tbi then some r else some (r ||| _BitMask 56 63)

/-- feat_pauth.py `Strip`: clear the PAC mask bits, then set them all when
bit 55 of the input is set. -/
def Strip (ptr bottom_pac_bit : Nat) (tbi : Bool) : Nat :=
  let pac_mask := _PACMask bottom_pac_bit tbi
  if ptr &&& (1 <<< 55) ≠ 0 then bitClear ptr pac_mask ||| pac_mask else bitClear ptr pac_mask

/-- feat_pauth.py `Strip` with the raising behaviour of `_PACMask`
propagated. -/
def StripChk (ptr bottom_pac_bit : Nat) (tbi : Bool) : Option Nat :=
  match _PACMaskChk bottom_pac_bit tbi with
  | none => none
  | some pac_mask =>
      some (if ptr &&& (1 <<< 55) ≠ 0 then bitClear ptr pac_mask ||| pac_mask else bitClear ptr pac_mask)

/-- feat_pauth.py `AddPAC`. -/
def AddPAC (ptr k_hi k_lo modifier bottom_pac_bit : Nat)
    (tbi have_enhanced_pac have_enhanced_pac2 : Bool) : Nat :=
  let top_bit := if tbi then 55 else 63
  let original_ptr := Strip ptr bottom_pac_bit tbi
  let extension_mask := _BitMask bottom_pac_bit top_bit
  let extension_bits := ptr &&& extension_mask
  let input_is_poisoned : Bool := extension_bits != 0 && extension_bits != extension_mask
  let pac :=
    if input_is_poisoned && have_enhanced_pac then 0
    else
      let p := modified_prince original_ptr k_hi k_lo modifier
      if input_is_poisoned && !have_enhanced_pac2 then p ^^^ (1 <<< (top_bit - 1)) else p
  let pac_mask := _PACMask bottom_pac_bit tbi
  if have_enhanced_pac2 then ptr ^^^ (pac &&& pac_mask)
  else bitClear ptr pac_mask ||| (pac &&& pac_mask)

/-- feat_pauth.py `Auth`. -/
def Auth (ptr k_hi k_lo : Nat) (b_key : Bool) (modifier bottom_pac_bit : Nat)
    (tbi have_enhanced_pac2 : Bool) : Nat :=
  let original_ptr := Strip ptr bottom_pac_bit tbi
  let pac := modified_prince original_ptr k_hi k_lo modifier
  let pac_mask := _PACMask bottom_pac_bit tbi
  if have_enhanced_pac2 then ptr ^^^ (pac &&& pac_mask)
  else if (ptr &&& pac_mask) != (pac &&& pac_mask) then
    let error_code : Nat := if b_key then 0b10 else 0b01
    let error_code_shift := if tbi then 53 else 61
    bitClear original_ptr (0b11 <<< error_code_shift) ||| (error_code <<< error_code_shift)
  else original_ptr

/-- The first modifier built by apple_kdf.py `kdf`:
`((usage & 0b1000) << 2) | 0b00000 | (usage & 0b111)`. -/
def kdf_modifier1 (usage : Nat) : Nat := ((usage &&& 0b1000) <<< 2) ||| 0b00000 ||| (usage &&& 0b111)

/-- The second modifier built by apple_kdf.py `kdf`:
`((usage & 0b1000) << 2) | 0b01000 | (usage & 0b111)`. -/
def kdf_modifier2 (usage : Nat) : Nat := ((usage &&& 0b1000) <<< 2) ||| 0b01000 ||| (usage &&& 0b111)

/-- apple_kdf.py `kdf`. -/
def kdf (ikey_hi ikey_lo data_hi data_lo usage : Nat) : Nat × Nat :=
  let modifier1 := kdf_modifier1 usage
  let tmp1 := modified_prince data_hi ikey_hi ikey_lo modifier1
  let okey_hi := modified_prince (tmp1 ^^^ data_lo) ikey_hi ikey_lo modifier1
  let modifier2 := kdf_modifier2 usage
  let tmp2 := modified_prince data_hi ikey_hi ikey_lo modifier2
  let okey_lo := modified_prince (tmp2 ^^^ data_lo) ikey_hi ikey_lo modifier2
  (okey_hi, okey_lo)

/-! ## Generic bit-level lemmas -/

lemma testBit_high {x n i : Nat} (h : x < 2^n) (hi : n ≤ i) : x.testBit i = false :=
  Nat.testBit_lt_two_pow (lt_of_lt_of_le h (Nat.pow_le_pow_right (by norm_num) hi))

lemma testBit_15 (r : Nat) : (15 : Nat).testBit r = decide (r < 4) := by
  rw [show (15 : Nat) = 2^4 - 1 by norm_num, Nat.testBit_two_pow_sub_one]

lemma testBit_bitClear (x mask i : Nat) :
    (bitClear x mask).testBit i = (x.testBit i && !(mask.testBit i)) := by
  unfold bitClear
  simp only [Nat.testBit_xor, Nat.testBit_and]
  cases x.testBit i <;> cases mask.testBit i <;> rfl

lemma testBit_BitMask {f t : Nat} (h : f ≤ t + 1) (i : Nat) :
    (_BitMask f t).testBit i = (decide (f ≤ i) && decide (i ≤ t)) := by
  unfold _BitMask
  rw [Nat.one_shiftLeft, Nat.testBit_shiftLeft, Nat.testBit_two_pow_sub_one]
  simp only [ge_iff_le]
  rcases le_or_lt f i with hf | hf
  · have h2 : decide (i - f < t + 1 - f) = decide (i ≤ t) := by
      rw [decide_eq_decide]; omega
    rw [h2]
  · have h1 : decide (f ≤ i) = false := by simp; omega
    rw [h1, Bool.false_and, Bool.false_and]

lemma BitMask_lt {f t : Nat} (ht : t ≤ 63) : _BitMask f t < 2^64 := by
  rcases le_or_lt f (t + 1) with h | h
  · apply Nat.lt_pow_two_of_testBit
    intro i hi
    rw [testBit_BitMask h i]
    simp; omega
  · unfold _BitMask
    have h0 : t + 1 - f = 0 := by omega
    rw [h0]
    have h1 : ((1 <<< 0) - 1 : Nat) = 0 := rfl
    rw [h1, Nat.zero_shiftLeft]
    norm_num

lemma testBit_PACMask {b : Nat} (hb : b ≤ 55) (tbi : Bool) (i : Nat) :
    (_PACMask b tbi).testBit i =
      ((decide (b ≤ i) && decide (i ≤ 54)) || (!tbi && (decide (56 ≤ i) && decide (i ≤ 63)))) := by
  have h1 := testBit_BitMask (by omega : b ≤ 54 + 1) i
  have h2 := testBit_BitMask (by norm_num : 56 ≤ 63 + 1) i
  cases tbi <;> simp [_PACMask, Nat.testBit_or, h1, h2]

lemma PACMask_testBit_55 {b : Nat} (hb : b ≤ 55) (tbi : Bool) :
    (_PACMask b tbi).testBit 55 = false := by
  rw [testBit_PACMask hb tbi 55]; simp

lemma PACMask_testBit_high {b : Nat} (hb : b ≤ 55) (tbi : Bool) {i : Nat} (hi : 64 ≤ i) :
    (_PACMask b tbi).testBit i = false := by
  rw [testBit_PACMask hb tbi i]
  simp only [Bool.or_eq_false_iff, Bool.and_eq_false_iff]
  constructor
  · right; simp; omega
  · right; right; simp; omega

lemma and_shiftLeft_55_ne (p : Nat) : (p &&& (1 <<< 55) ≠ 0) ↔ p.testBit 55 = true := by
  rw [Nat.one_shiftLeft, Nat.and_two_pow]
  cases h : p.testBit 55 <;> simp [h]


/-! ## Nibble machinery for the substitution and shift-rows layers -/

lemma nybble_ext {x y : Nat} (hx : x < 2^64) (hy : y < 2^64)
    (h : ∀ j, j < 16 → (x >>> (4*j)) &&& 15 = (y >>> (4*j)) &&& 15) : x = y := by
  apply Nat.eq_of_testBit_eq
  intro i
  rcases lt_or_ge i 64 with hi | hi
  · have hj : i / 4 < 16 := by omega
    have heq := congrArg (fun z => Nat.testBit z (i % 4)) (h (i / 4) hj)
    simp only [Nat.testBit_and, Nat.testBit_shiftRight, testBit_15] at heq
    have hr : decide (i % 4 < 4) = true := by
      have := Nat.mod_lt i (show 0 < 4 by norm_num)
      simp [this]
    rw [hr, Bool.and_true, Bool.and_true] at heq
    have hidx : 4 * (i / 4) + i % 4 = i := Nat.div_add_mod i 4
    rwa [hidx] at heq
  · rw [testBit_high hx hi, testBit_high hy hi]

lemma low_window (A B : Nat) {j n : Nat} (h : j < n) :
    ((A ||| (B <<< (4*n))) >>> (4*j)) &&& 15 = (A >>> (4*j)) &&& 15 := by
  apply Nat.eq_of_testBit_eq
  intro r
  simp only [Nat.testBit_and, Nat.testBit_shiftRight, Nat.testBit_or, Nat.testBit_shiftLeft,
    testBit_15]
  rcases lt_or_ge r 4 with hr | hr
  · have hlt : ¬ (4*j + r ≥ 4*n) := by omega
    simp [hlt]
  · have hd : decide (r < 4) = false := by simp; omega
    rw [hd, Bool.and_false, Bool.and_false]

lemma window_at (A B : Nat) {n : Nat} (hA : A < 2^(4*n)) (hB : B < 16) :
    ((A ||| (B <<< (4*n))) >>> (4*n)) &&& 15 = B := by
  have hB4 : B < 2^4 := by simpa using hB
  apply Nat.eq_of_testBit_eq
  intro r
  simp only [Nat.testBit_and, Nat.testBit_shiftRight, Nat.testBit_or, Nat.testBit_shiftLeft,
    testBit_15]
  rcases lt_or_ge r 4 with hr | hr
  · have hA' : A.testBit (4*n + r) = false := testBit_high hA (by omega)
    have hge : decide (4*n + r ≥ 4*n) = true := by simp
    have hsub : 4*n + r - 4*n = r := by omega
    rw [hA', hge, hsub]
    simp [hr]
  · have hd : decide (r < 4) = false := by simp; omega
    rw [hd, Bool.and_false, testBit_high hB4 hr]

lemma subAux_lt (f : Nat → Nat) (x : Nat) (hf : ∀ v, v < 16 → f v < 16) :
    ∀ n, subAux f x n < 2^(4*n) := by
  intro n
  induction n with
  | zero => simp [subAux]
  | succ n ih =>
    have hv : (x >>> (4*n)) &&& 15 < 16 := Nat.lt_succ_of_le Nat.and_le_right
    have hfv : f ((x >>> (4*n)) &&& 15) < 16 := hf _ hv
    simp only [subAux]
    apply Nat.or_lt_two_pow
    · exact lt_of_lt_of_le ih (Nat.pow_le_pow_right (by norm_num) (by omega))
    · rw [Nat.shiftLeft_eq]
      calc f ((x >>> (4*n)) &&& 15) * 2^(4*n)
          < 16 * 2^(4*n) := mul_lt_mul_of_pos_right hfv (pow_pos (by norm_num) _)
        _ ≤ 2^(4*(n+1)) := by
            rw [show (16:Nat) = 2^4 by norm_num, ← pow_add]
            exact Nat.pow_le_pow_right (by norm_num) (by omega)

lemma subAux_nybble (f : Nat → Nat) (x : Nat) (hf : ∀ v, v < 16 → f v < 16) :
    ∀ n, n ≤ 16 → ∀ j, j < n →
      ((subAux f x n) >>> (4*j)) &&& 15 = f ((x >>> (4*j)) &&& 15) := by
  intro n
  induction n with
  | zero => intro _ j hj; omega
  | succ n ih =>
    intro hn j hj
    simp only [subAux]
    rcases lt_or_eq_of_le (Nat.lt_succ_iff.mp hj) with hjn | hjn
    · rw [low_window _ _ hjn]
      exact ih (by omega) j hjn
    · subst hjn
      exact window_at _ _ (subAux_lt f x hf j) (hf _ (Nat.lt_succ_of_le Nat.and_le_right))

lemma S_getD_lt : ∀ v, v < 16 → S.getD v 0 < 16 := by decide

lemma S_indexOf_lt : ∀ v, v < 16 → S.indexOf v < 16 := by decide

lemma S_indexOf_getD : ∀ v, v < 16 → S.indexOf (S.getD v 0) = v := by decide

lemma S_getD_indexOf : ∀ v, v < 16 → S.getD (S.indexOf v) 0 = v := by decide

lemma s_lt (x : Nat) : s x < 2^64 :=
  lt_of_lt_of_le (subAux_lt (fun v => S.getD v 0) x S_getD_lt 16) (by norm_num)

lemma s_inv_lt (x : Nat) : s_inv x < 2^64 :=
  lt_of_lt_of_le (subAux_lt (fun v => S.indexOf v) x S_indexOf_lt 16) (by norm_num)

lemma s_inv_s {x : Nat} (hx : x < 2^64) : s_inv (s x) = x := by
  unfold s_inv s
  have hb : subAux (fun v => S.indexOf v) (subAux (fun v => S.getD v 0) x 16) 16 < 2^64 :=
    lt_of_lt_of_le (subAux_lt _ _ S_indexOf_lt 16) (by norm_num)
  apply nybble_ext hb hx
  intro j hj
  rw [subAux_nybble _ _ S_indexOf_lt 16 le_rfl j hj]
  rw [subAux_nybble _ _ S_getD_lt 16 le_rfl j hj]
  exact S_indexOf_getD _ (Nat.lt_succ_of_le Nat.and_le_right)

lemma s_s_inv {x : Nat} (hx : x < 2^64) : s (s_inv x) = x := by
  unfold s s_inv
  have hb : subAux (fun v => S.getD v 0) (subAux (fun v => S.indexOf v) x 16) 16 < 2^64 :=
    lt_of_lt_of_le (subAux_lt _ _ S_getD_lt 16) (by norm_num)
  apply nybble_ext hb hx
  intro j hj
  rw [subAux_nybble _ _ S_getD_lt 16 le_rfl j hj]
  rw [subAux_nybble _ _ S_indexOf_lt 16 le_rfl j hj]
  exact S_getD_indexOf _ (Nat.lt_succ_of_le Nat.and_le_right)

lemma extract_nybble_lt (x i : Nat) : extract_nybble x i < 16 :=
  Nat.lt_succ_of_le Nat.and_le_right

lemma extract_or_high (A B : Nat) {i n : Nat} (hin : i < n) (hn : n ≤ 15) (hB : B < 16) :
    extract_nybble (A ||| (B <<< ((15 - n) * 4))) i = extract_nybble A i := by
  have hB4 : B < 2^4 := by simpa using hB
  unfold extract_nybble
  apply Nat.eq_of_testBit_eq
  intro r
  simp only [Nat.testBit_and, Nat.testBit_shiftRight, Nat.testBit_or, Nat.testBit_shiftLeft,
    testBit_15]
  rcases lt_or_ge r 4 with hr | hr
  · rcases le_or_lt ((15-n)*4) ((15-i)*4 + r) with hge | hlt
    · have hs : (15-i)*4 + r - (15-n)*4 ≥ 4 := by omega
      have hBr : B.testBit ((15-i)*4 + r - (15-n)*4) = false := testBit_high hB4 hs
      simp [hBr]
    · have hd : decide ((15-i)*4 + r ≥ (15-n)*4) = false := by simp; omega
      simp [hd]
  · have hd : decide (r < 4) = false := by simp; omega
    rw [hd, Bool.and_false, Bool.and_false]

lemma extract_or_at (A B : Nat) {n : Nat} (hn : n ≤ 15) (hB : B < 16)
    (hA : ∀ p, p < 4*(16-n) → A.testBit p = false) :
    extract_nybble (A ||| (B <<< ((15 - n) * 4))) n = B := by
  have hB4 : B < 2^4 := by simpa using hB
  unfold extract_nybble
  apply Nat.eq_of_testBit_eq
  intro r
  simp only [Nat.testBit_and, Nat.testBit_shiftRight, Nat.testBit_or, Nat.testBit_shiftLeft,
    testBit_15]
  rcases lt_or_ge r 4 with hr | hr
  · have hAr : A.testBit ((15-n)*4 + r) = false := hA _ (by omega)
    have hge : decide ((15-n)*4 + r ≥ (15-n)*4) = true := by simp
    have hsub : (15-n)*4 + r - (15-n)*4 = r := by omega
    rw [hAr, hge, hsub]
    simp [hr]
  · have hd : decide (r < 4) = false := by simp; omega
    rw [hd, Bool.and_false, testBit_high hB4 hr]

lemma srAux_lowzero (perm : List Nat) (x : Nat) :
    ∀ n, n ≤ 16 → ∀ p, p < 4*(16 - n) → (srAux perm x n).testBit p = false := by
  intro n
  induction n with
  | zero => intro _ p _; simp [srAux, Nat.zero_testBit]
  | succ n ih =>
    intro hn p hp
    simp only [srAux]
    rw [Nat.testBit_or]
    have h1 : (srAux perm x n).testBit p = false := ih (by omega) p (by omega)
    have h2 : (set_nybble (extract_nybble x (perm.getD n 0)) n).testBit p = false := by
      unfold set_nybble
      rw [Nat.testBit_shiftLeft]
      have hd : ¬ (p ≥ (15-n)*4) := by omega
      simp [hd]
    rw [h1, h2]
    rfl

lemma srAux_lt (perm : List Nat) (x : Nat) : ∀ n, n ≤ 16 → srAux perm x n < 2^64 := by
  intro n
  induction n with
  | zero => intro _; simp [srAux]
  | succ n ih =>
    intro hn
    simp only [srAux]
    apply Nat.or_lt_two_pow (ih (by omega))
    unfold set_nybble
    rw [Nat.shiftLeft_eq]
    calc extract_nybble x (perm.getD n 0) * 2^((15-n)*4)
        < 16 * 2^((15-n)*4) := mul_lt_mul_of_pos_right (extract_nybble_lt _ _) (pow_pos (by norm_num) _)
      _ ≤ 2^64 := by
          rw [show (16:Nat) = 2^4 by norm_num, ← pow_add]
          exact Nat.pow_le_pow_right (by norm_num) (by omega)

lemma srAux_extract (perm : List Nat) (x : Nat) :
    ∀ n, n ≤ 16 → ∀ i, i < n →
      extract_nybble (srAux perm x n) i = extract_nybble x (perm.getD i 0) := by
  intro n
  induction n with
  | zero => intro _ i hi; omega
  | succ n ih =>
    intro hn i hi
    simp only [srAux, set_nybble]
    rcases lt_or_eq_of_le (Nat.lt_succ_iff.mp hi) with hin | hin
    · rw [extract_or_high _ _ hin (by omega) (extract_nybble_lt _ _)]
      have h := ih (by omega) i hin
      simp only [srAux, set_nybble] at h ⊢
      exact h
    · subst hin
      exact extract_or_at _ _ (by omega) (extract_nybble_lt _ _)
        (srAux_lowzero perm x i (by omega))

lemma SR_getD_lt : ∀ i, i < 16 → SR.getD i 0 < 16 := by decide

lemma SRinv_getD_lt : ∀ i, i < 16 → SR_inv.getD i 0 < 16 := by decide

lemma SR_SRinv : ∀ i, i < 16 → SR.getD (SR_inv.getD i 0) 0 = i := by decide

lemma SRinv_SR : ∀ i, i < 16 → SR_inv.getD (SR.getD i 0) 0 = i := by decide

lemma extract_ext {x y : Nat} (hx : x < 2^64) (hy : y < 2^64)
    (h : ∀ i, i < 16 → extract_nybble x i = extract_nybble y i) : x = y := by
  apply nybble_ext hx hy
  intro j hj
  have hh := h (15 - j) (by omega)
  unfold extract_nybble at hh
  rw [show 15 - (15 - j) = j from by omega] at hh
  rw [Nat.mul_comm 4 j]
  exact hh

lemma sr_lt (x : Nat) : sr x < 2^64 := srAux_lt SR x 16 le_rfl

lemma sr_inv_lt (x : Nat) : sr_inv x < 2^64 := srAux_lt SR_inv x 16 le_rfl

lemma sr_inv_sr {x : Nat} (hx : x < 2^64) : sr_inv (sr x) = x := by
  unfold sr_inv sr
  apply extract_ext (srAux_lt _ _ 16 le_rfl) hx
  intro i hi
  rw [srAux_extract SR_inv _ 16 le_rfl i hi]
  rw [srAux_extract SR x 16 le_rfl _ (SRinv_getD_lt i hi)]
  rw [SR_SRinv i hi]

lemma sr_sr_inv {x : Nat} (hx : x < 2^64) : sr (sr_inv x) = x := by
  unfold sr sr_inv
  apply extract_ext (srAux_lt _ _ 16 le_rfl) hx
  intro i hi
  rw [srAux_extract SR _ 16 le_rfl i hi]
  rw [srAux_extract SR_inv x 16 le_rfl _ (SR_getD_lt i hi)]
  rw [SRinv_SR i hi]

/-! ## The diffusion layer m_prime: linearity and involution -/

lemma MPRIME_getD_lt : ∀ n, M_PRIME.getD n 0 < 2^64 := by
  have h1 : ∀ n, n < 64 → M_PRIME.getD n 0 < 2^64 := by decide
  intro n
  rcases lt_or_ge n 64 with h | h
  · exact h1 n h
  · have hlen : M_PRIME.length = 64 := rfl
    rw [List.getD_eq_default _ _ (by omega)]
    norm_num

lemma mPrimeAux_lt (x : Nat) : ∀ n, mPrimeAux x n < 2^64 := by
  intro n
  induction n with
  | zero => simp [mPrimeAux]
  | succ n ih =>
    simp only [mPrimeAux]
    apply Nat.xor_lt_two_pow ih
    calc ((x >>> (63 - n)) &&& 1) * M_PRIME.getD n 0
        ≤ 1 * M_PRIME.getD n 0 := Nat.mul_le_mul_right _ Nat.and_le_right
      _ = M_PRIME.getD n 0 := one_mul _
      _ < 2^64 := MPRIME_getD_lt n

lemma m_prime_lt (x : Nat) : m_prime x < 2^64 := mPrimeAux_lt x 64

lemma shiftRight_and_one_xor (x y sft : Nat) :
    ((x ^^^ y) >>> sft) &&& 1 = (((x >>> sft) &&& 1) ^^^ ((y >>> sft) &&& 1)) := by
  apply Nat.eq_of_testBit_eq
  intro i
  simp only [Nat.testBit_and, Nat.testBit_shiftRight, Nat.testBit_xor]
  cases x.testBit (sft + i) <;> cases y.testBit (sft + i) <;>
    cases (1:Nat).testBit i <;> rfl

lemma xor_xor_comm (a b c d : Nat) : (a ^^^ b) ^^^ (c ^^^ d) = (a ^^^ c) ^^^ (b ^^^ d) := by
  apply Nat.eq_of_testBit_eq
  intro i
  simp only [Nat.testBit_xor]
  cases a.testBit i <;> cases b.testBit i <;> cases c.testBit i <;> cases d.testBit i <;> rfl

lemma bit_mul_xor {bx b2 : Nat} (hx : bx ≤ 1) (h2 : b2 ≤ 1) (e : Nat) :
    (bx ^^^ b2) * e = (bx * e) ^^^ (b2 * e) := by
  interval_cases bx <;> interval_cases b2 <;>
    simp [Nat.xor_self, Nat.zero_xor, Nat.xor_zero]

lemma mPrimeAux_linear (x y : Nat) :
    ∀ n, mPrimeAux (x ^^^ y) n = mPrimeAux x n ^^^ mPrimeAux y n := by
  intro n
  induction n with
  | zero => simp [mPrimeAux]
  | succ n ih =>
    simp only [mPrimeAux]
    rw [ih, shiftRight_and_one_xor, bit_mul_xor Nat.and_le_right Nat.and_le_right]
    exact xor_xor_comm _ _ _ _

lemma m_prime_linear (x y : Nat) : m_prime (x ^^^ y) = m_prime x ^^^ m_prime y :=
  mPrimeAux_linear x y 64

lemma m_prime_basis : ∀ j, j < 64 → m_prime (m_prime (2^j)) = 2^j := by decide

lemma m_prime_invol {x : Nat} (hx : x < 2^64) : m_prime (m_prime x) = x := by
  have key : ∀ n, n ≤ 64 → ∀ y, y < 2^n → m_prime (m_prime y) = y := by
    intro n
    induction n with
    | zero =>
      intro _ y hy
      have h0 : y = 0 := by simpa [Nat.lt_one_iff] using hy
      subst h0
      decide
    | succ n ih =>
      intro hn y hy
      by_cases hbit : y.testBit n
      · have hyn : y ^^^ 2^n < 2^n := by
          apply Nat.lt_pow_two_of_testBit
          intro i hi
          rcases eq_or_lt_of_le hi with rfl | hgt
          · simp [Nat.testBit_xor, hbit, Nat.testBit_two_pow]
          · rw [Nat.testBit_xor, testBit_high hy hgt, Nat.testBit_two_pow]
            simp
            omega
        have hrec := ih (by omega) _ hyn
        have hbasis : m_prime (m_prime (2^n)) = 2^n := m_prime_basis n (by omega)
        have hsplit : 2^n ^^^ (y ^^^ 2^n) = y := by
          rw [Nat.xor_comm y (2^n), ← Nat.xor_assoc, Nat.xor_self, Nat.zero_xor]
        calc m_prime (m_prime y)
            = m_prime (m_prime (2^n ^^^ (y ^^^ 2^n))) := by rw [hsplit]
          _ = m_prime (m_prime (2^n)) ^^^ m_prime (m_prime (y ^^^ 2^n)) := by
              rw [m_prime_linear, m_prime_linear]
          _ = 2^n ^^^ (y ^^^ 2^n) := by rw [hbasis, hrec]
          _ = y := hsplit
      · have hy2 : y < 2^n := by
          apply Nat.lt_pow_two_of_testBit
          intro i hi
          rcases eq_or_lt_of_le hi with rfl | hgt
          · simpa using hbit
          · exact testBit_high hy hgt
        exact ih (by omega) y hy2
  exact key 64 le_rfl x hx

lemma m_lt (x : Nat) : m x < 2^64 := sr_lt _

lemma m_inv_lt (x : Nat) : m_inv x < 2^64 := m_prime_lt _

lemma m_inv_m {x : Nat} (hx : x < 2^64) : m_inv (m x) = x := by
  unfold m_inv m
  rw [sr_inv_sr (m_prime_lt x), m_prime_invol hx]

lemma m_m_inv {x : Nat} (hx : x < 2^64) : m (m_inv x) = x := by
  unfold m m_inv
  rw [m_prime_invol (sr_inv_lt x), sr_sr_inv hx]

lemma middle_lt (x : Nat) : middle x < 2^64 := s_inv_lt _

lemma middle_invol {x : Nat} (hx : x < 2^64) : middle (middle x) = x := by
  unfold middle
  rw [s_s_inv (m_prime_lt _), m_prime_invol (s_lt x), s_inv_s hx]

/-! ## The alpha-reflection property of the PRINCE core -/

/-- The PRINCE alpha constant, `RC[11]`; the standard table satisfies
`RC[i] XOR RC[11-i] = alpha`. -/
def alpha : Nat := 0xc0ac29b7c97c50dd

lemma RC_getD_lt : ∀ i, RC.getD i 0 < 2^64 := by
  have h1 : ∀ i, i < 12 → RC.getD i 0 < 2^64 := by decide
  intro i
  rcases lt_or_ge i 12 with h | h
  · exact h1 i h
  · have hlen : RC.length = 12 := rfl
    rw [List.getD_eq_default _ _ (by omega)]
    norm_num

lemma fRound_lt {k1 : Nat} (hk1 : k1 < 2^64) (rc : List Nat) (i st : Nat)
    (hrc : rc.getD i 0 < 2^64) : fRound k1 rc i st < 2^64 :=
  Nat.xor_lt_two_pow (Nat.xor_lt_two_pow (sr_lt _) hrc) hk1

lemma bRound_lt (k1 : Nat) (rc : List Nat) (i st : Nat) : bRound k1 rc i st < 2^64 :=
  s_inv_lt _

lemma xor_sh2 (w k r1 r2 a : Nat) (h : r2 ^^^ r1 = a) :
    (((w ^^^ k) ^^^ r1) ^^^ r2) ^^^ (k ^^^ a) = w := by
  subst h
  apply Nat.eq_of_testBit_eq
  intro i
  simp only [Nat.testBit_xor]
  cases w.testBit i <;> cases k.testBit i <;> cases r1.testBit i <;> cases r2.testBit i <;> rfl

lemma xor_sh3 (u k r1 r2 a : Nat) (h : r1 ^^^ r2 = a) :
    (((u ^^^ r1) ^^^ k) ^^^ (k ^^^ a)) ^^^ r2 = u := by
  subst h
  apply Nat.eq_of_testBit_eq
  intro i
  simp only [Nat.testBit_xor]
  cases u.testBit i <;> cases k.testBit i <;> cases r1.testBit i <;> cases r2.testBit i <;> rfl

lemma xor_sh5 (y k a : Nat) : (((y ^^^ a) ^^^ k) ^^^ (k ^^^ a)) ^^^ 0 = y := by
  rw [Nat.xor_zero]
  apply Nat.eq_of_testBit_eq
  intro i
  simp only [Nat.testBit_xor]
  cases y.testBit i <;> cases k.testBit i <;> cases a.testBit i <;> rfl

lemma xor_sh6 (x k a : Nat) : (((x ^^^ k) ^^^ 0) ^^^ a) ^^^ (k ^^^ a) = x := by
  rw [Nat.xor_zero]
  apply Nat.eq_of_testBit_eq
  intro i
  simp only [Nat.testBit_xor]
  cases x.testBit i <;> cases k.testBit i <;> cases a.testBit i <;> rfl

lemma fb_cancel {k1 : Nat} (hk1 : k1 < 2^64) (i j : Nat) {w : Nat} (hw : w < 2^64)
    (hrcj : RC.getD j 0 < 2^64) (hij : RC.getD i 0 ^^^ RC.getD j 0 = alpha) :
    fRound (k1 ^^^ alpha) RC i (bRound k1 RC j w) = w := by
  unfold fRound bRound
  have hu : (w ^^^ k1) ^^^ RC.getD j 0 < 2^64 :=
    Nat.xor_lt_two_pow (Nat.xor_lt_two_pow hw hk1) hrcj
  rw [s_s_inv (m_inv_lt _), m_m_inv hu]
  exact xor_sh2 w k1 (RC.getD j 0) (RC.getD i 0) alpha hij

lemma bf_cancel {k1 : Nat} (hk1 : k1 < 2^64) (i j : Nat) {w : Nat} (hw : w < 2^64)
    (hij : RC.getD i 0 ^^^ RC.getD j 0 = alpha) :
    bRound (k1 ^^^ alpha) RC j (fRound k1 RC i w) = w := by
  unfold fRound bRound
  rw [xor_sh3 (m (s w)) k1 (RC.getD i 0) (RC.getD j 0) alpha hij]
  rw [m_inv_m (s_lt w), s_inv_s hw]

lemma prince_core_unfold (x k1 : Nat) (rc : List Nat) :
    prince_core x k1 rc =
      ((bRound k1 rc 10 (bRound k1 rc 9 (bRound k1 rc 8 (bRound k1 rc 7 (bRound k1 rc 6
        (middle (fRound k1 rc 5 (fRound k1 rc 4 (fRound k1 rc 3 (fRound k1 rc 2 (fRound k1 rc 1
        ((x ^^^ k1) ^^^ rc.getD 0 0)))))))))))) ^^^ rc.getD 11 0) ^^^ k1 := by
  rw [show prince_core x k1 rc =
      (((List.range' 6 5).foldl (fun st i => bRound k1 rc i st)
        (middle ((List.range' 1 5).foldl (fun st i => fRound k1 rc i st)
          ((x ^^^ k1) ^^^ rc.getD 0 0)))) ^^^ rc.getD 11 0) ^^^ k1 from rfl]
  rw [show (List.range' 1 5).foldl (fun st i => fRound k1 rc i st) ((x ^^^ k1) ^^^ rc.getD 0 0) =
      fRound k1 rc 5 (fRound k1 rc 4 (fRound k1 rc 3 (fRound k1 rc 2 (fRound k1 rc 1
        ((x ^^^ k1) ^^^ rc.getD 0 0))))) from rfl]
  rw [show ∀ y, (List.range' 6 5).foldl (fun st i => bRound k1 rc i st) y =
      bRound k1 rc 10 (bRound k1 rc 9 (bRound k1 rc 8 (bRound k1 rc 7 (bRound k1 rc 6 y))))
    from fun y => rfl]

lemma prince_core_reflection {x k1 : Nat} (hx : x < 2^64) (hk1 : k1 < 2^64) :
    prince_core (prince_core x k1 RC) (k1 ^^^ alpha) RC = x := by
  rw [prince_core_unfold x k1 RC, prince_core_unfold _ (k1 ^^^ alpha) RC]
  rw [show RC.getD 0 0 = 0 from rfl, show RC.getD 11 0 = alpha from rfl]
  rw [xor_sh5]
  rw [fb_cancel hk1 1 10 (bRound_lt k1 RC 9 _) (by decide) (by decide)]
  rw [fb_cancel hk1 2 9 (bRound_lt k1 RC 8 _) (by decide) (by decide)]
  rw [fb_cancel hk1 3 8 (bRound_lt k1 RC 7 _) (by decide) (by decide)]
  rw [fb_cancel hk1 4 7 (bRound_lt k1 RC 6 _) (by decide) (by decide)]
  rw [fb_cancel hk1 5 6 (middle_lt _) (by decide) (by decide)]
  rw [middle_invol (fRound_lt hk1 RC 5 _ (by decide))]
  rw [bf_cancel hk1 5 6 (fRound_lt hk1 RC 4 _ (by decide)) (by decide)]
  rw [bf_cancel hk1 4 7 (fRound_lt hk1 RC 3 _ (by decide)) (by decide)]
  rw [bf_cancel hk1 3 8 (fRound_lt hk1 RC 2 _ (by decide)) (by decide)]
  rw [bf_cancel hk1 2 9 (fRound_lt hk1 RC 1 _ (by decide)) (by decide)]
  rw [bf_cancel hk1 1 10
    (Nat.xor_lt_two_pow (Nat.xor_lt_two_pow hx hk1) (by norm_num)) (by decide)]
  exact xor_sh6 x k1 alpha

/-! ## Pointer-operation lemmas -/

lemma PACMask_lt {b : Nat} (hb : b ≤ 55) (tbi : Bool) : _PACMask b tbi < 2^64 := by
  apply Nat.lt_pow_two_of_testBit
  intro i hi
  exact PACMask_testBit_high hb tbi hi

lemma testBit_Strip {b : Nat} (hb : b ≤ 55) (p : Nat) (tbi : Bool) (i : Nat) :
    (Strip p b tbi).testBit i =
      (if (_PACMask b tbi).testBit i then p.testBit 55 else p.testBit i) := by
  simp only [Strip]
  by_cases h55 : p.testBit 55
  · rw [if_pos ((and_shiftLeft_55_ne p).mpr h55), Nat.testBit_or, testBit_bitClear]
    cases hm : (_PACMask b tbi).testBit i <;> simp [h55, hm]
  · have h0 : ¬ (p &&& (1 <<< 55) ≠ 0) := fun hne => h55 ((and_shiftLeft_55_ne p).mp hne)
    have h55f : p.testBit 55 = false := by simpa using h55
    rw [if_neg h0, testBit_bitClear]
    cases hm : (_PACMask b tbi).testBit i <;> simp [hm, h55f]

lemma Strip_eq_of_agree {b : Nat} (hb : b ≤ 55) {x y : Nat} (tbi : Bool)
    (h : ∀ i, (_PACMask b tbi).testBit i = false → x.testBit i = y.testBit i) :
    Strip x b tbi = Strip y b tbi := by
  apply Nat.eq_of_testBit_eq
  intro i
  rw [testBit_Strip hb, testBit_Strip hb]
  have h55 : x.testBit 55 = y.testBit 55 := h 55 (PACMask_testBit_55 hb tbi)
  cases hm : (_PACMask b tbi).testBit i
  · simp [h i hm]
  · simp [h55]

lemma Strip_Strip {b : Nat} (hb : b ≤ 55) (p : Nat) (tbi : Bool) :
    Strip (Strip p b tbi) b tbi = Strip p b tbi := by
  apply Nat.eq_of_testBit_eq
  intro i
  rw [testBit_Strip hb]
  have h55 : (Strip p b tbi).testBit 55 = p.testBit 55 := by
    rw [testBit_Strip hb, PACMask_testBit_55 hb]
    simp
  cases hm : (_PACMask b tbi).testBit i
  · simp
  · simp only [if_pos rfl, h55]
    rw [testBit_Strip hb, hm]
    simp

lemma Strip_canonical {p b : Nat} {tbi : Bool} (hp : p < 2^64) (hb : b ≤ 55)
    (hc : p &&& _BitMask b (if tbi then 55 else 63) = 0 ∨
          p &&& _BitMask b (if tbi then 55 else 63) = _BitMask b (if tbi then 55 else 63)) :
    Strip p b tbi = p := by
  have h55m : (_BitMask b (if tbi then 55 else 63)).testBit 55 = true := by
    rw [testBit_BitMask (by cases tbi <;> simp <;> omega)]
    cases tbi <;> simp [hb]
  have hext : ∀ i, (_BitMask b (if tbi then 55 else 63)).testBit i = true →
      p.testBit i = p.testBit 55 := by
    intro i hi
    rcases hc with hc | hc
    · have h1 : p.testBit i = false := by
        have hh := congrArg (fun z => z.testBit i) hc
        simpa [Nat.testBit_and, hi] using hh
      have h2 : p.testBit 55 = false := by
        have hh := congrArg (fun z => z.testBit 55) hc
        simpa [Nat.testBit_and, h55m] using hh
      rw [h1, h2]
    · have h1 : p.testBit i = true := by
        have hh := congrArg (fun z => z.testBit i) hc
        simpa [Nat.testBit_and, hi] using hh
      have h2 : p.testBit 55 = true := by
        have hh := congrArg (fun z => z.testBit 55) hc
        simpa [Nat.testBit_and, h55m] using hh
      rw [h1, h2]
  apply Nat.eq_of_testBit_eq
  intro i
  rw [testBit_Strip hb]
  cases hm : (_PACMask b tbi).testBit i
  · simp
  · have hie : (_BitMask b (if tbi then 55 else 63)).testBit i = true := by
      rw [testBit_BitMask (by cases tbi <;> simp <;> omega)]
      rw [testBit_PACMask hb] at hm
      cases tbi <;> simp at hm ⊢ <;> omega
    simp only [if_pos rfl]
    exact (hext i hie).symm

lemma poisoned_eq_false {p M : Nat} (hc : p &&& M = 0 ∨ p &&& M = M) :
    ((p &&& M != 0) && (p &&& M != M)) = false := by
  rcases hc with hc | hc <;> simp [hc]

lemma frame_bit {p q mask : Nat} {i : Nat} (him : mask.testBit i = false) :
    ((p ^^^ (q &&& mask)).testBit i = p.testBit i) ∧
    ((bitClear p mask ||| (q &&& mask)).testBit i = p.testBit i) := by
  constructor
  · rw [Nat.testBit_xor, Nat.testBit_and, him]
    simp
  · rw [Nat.testBit_or, testBit_bitClear, Nat.testBit_and, him]
    simp

lemma or_masked_and (p q mask : Nat) :
    (bitClear p mask ||| (q &&& mask)) &&& mask = q &&& mask := by
  apply Nat.eq_of_testBit_eq
  intro i
  simp only [Nat.testBit_and, Nat.testBit_or, testBit_bitClear]
  cases hm : mask.testBit i <;> simp

lemma testBit_3 (r : Nat) : (3 : Nat).testBit r = decide (r < 2) := by
  rw [show (3 : Nat) = 2^2 - 1 by norm_num, Nat.testBit_two_pow_sub_one]

lemma errField_write (base code shift : Nat) (hcode : code < 4) :
    ((bitClear base (3 <<< shift) ||| (code <<< shift)) >>> shift) &&& 3 = code := by
  have hc2 : code < 2^2 := by simpa using hcode
  apply Nat.eq_of_testBit_eq
  intro r
  simp only [Nat.testBit_and, Nat.testBit_shiftRight, Nat.testBit_or, testBit_bitClear,
    Nat.testBit_shiftLeft, testBit_3]
  rcases lt_or_ge r 2 with hr | hr
  · have hge : decide (shift + r ≥ shift) = true := by simp
    have hsub : shift + r - shift = r := by omega
    rw [hge, hsub]
    simp [hr]
  · have hd : decide (r < 2) = false := by simp; omega
    rw [hd, Bool.and_false, testBit_high hc2 hr]

lemma errField_frame (base code shift : Nat) (hcode : code < 4) {i : Nat}
    (hi1 : i ≠ shift) (hi2 : i ≠ shift + 1) :
    (bitClear base (3 <<< shift) ||| (code <<< shift)).testBit i = base.testBit i := by
  have hc2 : code < 2^2 := by simpa using hcode
  simp only [Nat.testBit_or, testBit_bitClear, Nat.testBit_shiftLeft, testBit_3]
  rcases lt_or_ge i shift with hlt | hge
  · have hd : decide (i ≥ shift) = false := by simp; omega
    rw [hd]
    simp
  · have hd : decide (i ≥ shift) = true := by simp [hge]
    have hd2 : decide (i - shift < 2) = false := by simp; omega
    have hcb : code.testBit (i - shift) = false := testBit_high hc2 (by omega)
    rw [hd, hd2, hcb]
    simp

lemma PACMaskChk_eq {b : Nat} (hb : b ≤ 55) (tbi : Bool) :
    _PACMaskChk b tbi = some (_PACMask b tbi) := by
  unfold _PACMaskChk _BitMaskChk
  rw [if_pos (by omega : b ≤ 54 + 1)]
  cases tbi <;> simp [_PACMask]

lemma PACMaskChk_none {b : Nat} (hb : 56 ≤ b) (tbi : Bool) :
    _PACMaskChk b tbi = none := by
  unfold _PACMaskChk _BitMaskChk
  rw [if_neg (by omega)]

lemma StripChk_eq {b : Nat} (hb : b ≤ 55) (q : Nat) (tbi : Bool) :
    StripChk q b tbi = some (Strip q b tbi) := by
  unfold StripChk Strip
  rw [PACMaskChk_eq hb]

lemma StripChk_none {b : Nat} (hb : 56 ≤ b) (q : Nat) (tbi : Bool) :
    StripChk q b tbi = none := by
  unfold StripChk
  rw [PACMaskChk_none hb]

lemma Auth_ehp2_eq (q k_hi k_lo : Nat) (b_key : Bool) (modifier b : Nat) (tbi : Bool) :
    Auth q k_hi k_lo b_key modifier b tbi true =
      q ^^^ (modified_prince (Strip q b tbi) k_hi k_lo modifier &&& _PACMask b tbi) := by
  simp [Auth]

/-! ## The claims -/

/-- C6: the middle layer of the PRINCE core — substitute, then the
non-permuted linear diffusion `m_prime`, then unsubstitute — is an involution
on 64-bit states: `middle (middle x) = x`; in particular
`m_prime (m_prime x) = x` for every 64-bit `x`. -/
theorem C6_middle_involution (x : Nat) (hx : x < 2^64) :
    middle (middle x) = x ∧ m_prime (m_prime x) = x :=
  ⟨middle_invol hx, m_prime_invol hx⟩

/-- Witness for C6 at the concrete state 0xfeedfacefeedface. -/
theorem C6_middle_involution_witness :
    (0xfeedfacefeedface : Nat) < 2^64 ∧
      (middle (middle 0xfeedfacefeedface) = 0xfeedfacefeedface ∧
       m_prime (m_prime 0xfeedfacefeedface) = 0xfeedfacefeedface) :=
  ⟨by norm_num, C6_middle_involution 0xfeedfacefeedface (by norm_num)⟩

/-- C5 counterexample: the claimed equation
`prince (prince value k0 k1 RC) (complement k0) k1 RC = value` already fails
at `value = 1`, `k0 = 0`, `k1 = 0` — the second key half must additionally be
XORed with `alpha = RC[11]` for the core rounds to invert. -/
theorem C5_counterexample :
    prince (prince 1 0 0 RC) (complement 0) 0 RC ≠ 1 := by
  have h1 : prince 1 0 0 RC = 10571097402120343259 := by decide
  rw [h1]
  decide

/-- C5 (amended): with the alpha-tweaked second half-key the double
application of `prince` inverts the core, but `prince` re-derives its output
whitening key from its key argument, so the round trip returns
`value XOR k0 XOR complement (complement k0)` — which is `value` exactly when
`complement (complement k0) = k0`, e.g. for `k0 = 0`. -/
theorem C5_amended_prince_roundtrip (v k0 k1 : Nat)
    (hv : v < 2^64) (hk0 : k0 < 2^64) (hk1 : k1 < 2^64) :
    prince (prince v k0 k1 RC) (complement k0) (k1 ^^^ RC.getD 11 0) RC =
      (v ^^^ k0) ^^^ complement (complement k0) := by
  show prince_core ((prince_core (v ^^^ k0) k1 RC ^^^ complement k0) ^^^ complement k0)
      (k1 ^^^ RC.getD 11 0) RC ^^^ complement (complement k0) = _
  rw [Nat.xor_cancel_right]
  rw [show RC.getD 11 0 = alpha from rfl]
  rw [prince_core_reflection (Nat.xor_lt_two_pow hv hk0) hk1]

/-- Witness for the amended C5 at `value = 5`, `k0 = 3`, `k1 = 7`. -/
theorem C5_amended_witness :
    prince (prince 5 3 7 RC) (complement 3) (7 ^^^ RC.getD 11 0) RC =
      ((5 : Nat) ^^^ 3) ^^^ complement (complement 3) :=
  C5_amended_prince_roundtrip 5 3 7 (by norm_num) (by norm_num) (by norm_num)

/-- C4 counterexample: computing the PAC mask is not total on [0,63] — for
`bottom_pac_bit = 63` the Python code computes `1 << (54 - 63 + 1)`, a
negative shift count, and raises ValueError (modelled as `none`) instead of
returning an empty mask. -/
theorem C4_counterexample :
    _PACMaskChk 63 true = none ∧ _PACMaskChk 63 false = none := by decide

/-- C4 (amended): the PAC-mask computation completes without raising exactly
for `bottom_pac_bit` in [0,55] — there it never wraps (the mask is a 64-bit
value); `bottom_pac_bit = 55` with `tbi` gives the empty mask, and
`bottom_pac_bit = 0` gives the maximal field (bits [0,54], plus bits [56,63]
when `tbi` is false) — while every `bottom_pac_bit` in [56,63] raises. -/
theorem C4_amended_mask_totality (b : Nat) (tbi : Bool) (hb : b ≤ 63) :
    (b ≤ 55 → _PACMaskChk b tbi = some (_PACMask b tbi) ∧ _PACMask b tbi < 2^64) ∧
    (56 ≤ b → _PACMaskChk b tbi = none) ∧
    _PACMaskChk 55 true = some 0 ∧
    _PACMaskChk 0 tbi = some (if tbi then 2^55 - 1 else (2^55 - 1) ||| (0xff <<< 56)) := by
  refine ⟨fun hb55 => ⟨PACMaskChk_eq hb55 tbi, PACMask_lt hb55 tbi⟩,
    fun hb56 => PACMaskChk_none hb56 tbi, by decide, by cases tbi <;> decide⟩

/-- Witness for the amended C4 at `bottom_pac_bit = 39`, `tbi = false`. -/
theorem C4_amended_witness :
    _PACMaskChk 39 false = some (_PACMask 39 false) ∧ _PACMask 39 false < 2^64 :=
  (C4_amended_mask_totality 39 false (by norm_num)).1 (by norm_num)

/-- C8: Strip is idempotent for every 64-bit pointer, every
`bottom_pac_bit` in [0,63] and every `tbi`; for `bottom_pac_bit` in [56,63]
both sides raise (are `none`), so the equation holds in the Kleisli sense,
and on [0,55] it holds between the returned values. -/
theorem C8_strip_idempotent (ptr b : Nat) (tbi : Bool) (hp : ptr < 2^64) (hb : b ≤ 63) :
    (StripChk ptr b tbi).bind (fun r => StripChk r b tbi) = StripChk ptr b tbi := by
  rcases le_or_lt b 55 with h55 | h55
  · rw [StripChk_eq h55, Option.some_bind, StripChk_eq h55, Strip_Strip h55]
  · rw [StripChk_none (by omega), Option.none_bind]

/-- Witness for C8 at `ptr = 0x123456789a`, `bottom_pac_bit = 39`,
`tbi = false`. -/
theorem C8_strip_idempotent_witness :
    (StripChk 0x123456789a 39 false).bind (fun r => StripChk r 39 false) =
      StripChk 0x123456789a 39 false :=
  C8_strip_idempotent 0x123456789a 39 false (by norm_num) (by norm_num)

/-- C9: with EnhancedPAC2, Auth is an involution — applying it twice with
identical arguments returns the original pointer. -/
theorem C9_auth_ehp2_involution (ptr k_hi k_lo : Nat) (b_key : Bool) (modifier b : Nat)
    (tbi : Bool) (hp : ptr < 2^64) (hb : b ≤ 55) :
    Auth (Auth ptr k_hi k_lo b_key modifier b tbi true) k_hi k_lo b_key modifier b tbi true =
      ptr := by
  have hstr : Strip (ptr ^^^ (modified_prince (Strip ptr b tbi) k_hi k_lo modifier &&&
      _PACMask b tbi)) b tbi = Strip ptr b tbi := by
    apply Strip_eq_of_agree hb
    intro i him
    exact (frame_bit him).1
  rw [Auth_ehp2_eq, Auth_ehp2_eq, hstr, Nat.xor_cancel_right]

/-- Witness for C9 at a concrete pointer and key. -/
theorem C9_auth_ehp2_involution_witness :
    Auth (Auth 0x123456789abcdef0 7 8 true 9 39 false true) 7 8 true 9 39 false true =
      0x123456789abcdef0 :=
  C9_auth_ehp2_involution 0x123456789abcdef0 7 8 true 9 39 false (by norm_num) (by norm_num)

/-- C10: AddPAC (for every key, modifier and flag combination) and Strip
agree with the input pointer on every bit outside the PAC mask; in particular
the address bits below `bottom_pac_bit` and bit 55 are never modified. -/
theorem C10_frame_effect (p k_hi k_lo modifier b : Nat) (tbi ehp ehp2 : Bool)
    (hp : p < 2^64) (hb : b ≤ 55) :
    (∀ i, (_PACMask b tbi).testBit i = false →
        (AddPAC p k_hi k_lo modifier b tbi ehp ehp2).testBit i = p.testBit i ∧
        (Strip p b tbi).testBit i = p.testBit i) ∧
    (∀ i, (i < b ∨ i = 55) →
        (AddPAC p k_hi k_lo modifier b tbi ehp ehp2).testBit i = p.testBit i ∧
        (Strip p b tbi).testBit i = p.testBit i) := by
  have hmain : ∀ i, (_PACMask b tbi).testBit i = false →
      (AddPAC p k_hi k_lo modifier b tbi ehp ehp2).testBit i = p.testBit i ∧
      (Strip p b tbi).testBit i = p.testBit i := by
    intro i him
    constructor
    · obtain ⟨q, hq⟩ : ∃ q : Nat, AddPAC p k_hi k_lo modifier b tbi ehp ehp2 =
          (if ehp2 then p ^^^ (q &&& _PACMask b tbi)
           else bitClear p (_PACMask b tbi) ||| (q &&& _PACMask b tbi)) := ⟨_, rfl⟩
      rw [hq]
      cases ehp2
      · rw [if_neg Bool.false_ne_true]
        exact (frame_bit him).2
      · rw [if_pos rfl]
        exact (frame_bit him).1
    · rw [testBit_Strip hb, him]
      simp
  refine ⟨hmain, fun i hi => hmain i ?_⟩
  rcases hi with hi | rfl
  · have d1 : decide (b ≤ i) = false := by simp; omega
    have d2 : decide (56 ≤ i) = false := by simp; omega
    rw [testBit_PACMask hb, d1, d2]
    simp
  · exact PACMask_testBit_55 hb tbi

/-- Witness for C10 at a concrete pointer, with bit 5 (below
`bottom_pac_bit = 39`) and bit 55 checked through the second conjunct. -/
theorem C10_frame_effect_witness :
    (AddPAC 0xfeed0000beef 1 2 3 39 false true false).testBit 5 =
        (0xfeed0000beef : Nat).testBit 5 ∧
      (Strip 0xfeed0000beef 39 false).testBit 5 = (0xfeed0000beef : Nat).testBit 5 :=
  (C10_frame_effect 0xfeed0000beef 1 2 3 39 false true false (by norm_num) (by norm_num)).2
    5 (Or.inl (by norm_num))

/-- C1: for every canonical 64-bit pointer (bits from `bottom_pac_bit` up
through the top bit — 55 when `tbi`, 63 otherwise — all 0 or all 1), every
128-bit key, every modifier, every `bottom_pac_bit` in [0,55], every `tbi`,
and every combination of the EnhancedPAC / EnhancedPAC2 flags,
`Auth (AddPAC p ...) ...` with `b_key = false` equals `Strip p`. -/
theorem C1_sign_auth_roundtrip (p k_hi k_lo modifier b : Nat) (tbi ehp ehp2 : Bool)
    (hp : p < 2^64) (hb : b ≤ 55)
    (hcanon : p &&& _BitMask b (if tbi then 55 else 63) = 0 ∨
              p &&& _BitMask b (if tbi then 55 else 63) = _BitMask b (if tbi then 55 else 63)) :
    Auth (AddPAC p k_hi k_lo modifier b tbi ehp ehp2) k_hi k_lo false modifier b tbi ehp2 =
      Strip p b tbi := by
  have hpois := poisoned_eq_false hcanon
  have hq : AddPAC p k_hi k_lo modifier b tbi ehp ehp2 =
      (if ehp2 then
        p ^^^ (modified_prince (Strip p b tbi) k_hi k_lo modifier &&& _PACMask b tbi)
       else bitClear p (_PACMask b tbi) |||
         (modified_prince (Strip p b tbi) k_hi k_lo modifier &&& _PACMask b tbi)) := by
    simp [AddPAC, hpois]
  cases ehp2
  case false =>
    rw [hq, if_neg Bool.false_ne_true]
    have hagree : Strip (bitClear p (_PACMask b tbi) |||
        (modified_prince (Strip p b tbi) k_hi k_lo modifier &&& _PACMask b tbi)) b tbi =
        Strip p b tbi :=
      Strip_eq_of_agree hb _ (fun i him => (frame_bit him).2)
    simp [Auth, hagree, or_masked_and]
  case true =>
    rw [hq, if_pos rfl]
    have hagree : Strip (p ^^^
        (modified_prince (Strip p b tbi) k_hi k_lo modifier &&& _PACMask b tbi)) b tbi =
        Strip p b tbi :=
      Strip_eq_of_agree hb _ (fun i him => (frame_bit him).1)
    rw [Auth_ehp2_eq, hagree, Nat.xor_cancel_right]
    exact (Strip_canonical hp hb hcanon).symm

/-- Witness for C1 at the canonical pointer 0x123456789a (all extension
bits 0), `bottom_pac_bit = 39`, `tbi = false`, both flags off. -/
theorem C1_sign_auth_roundtrip_witness :
    Auth (AddPAC 0x123456789a 1 2 3 39 false false false) 1 2 false 3 39 false false =
      Strip 0x123456789a 39 false :=
  C1_sign_auth_roundtrip 0x123456789a 1 2 3 39 false false false (by norm_num) (by norm_num)
    (Or.inl (by decide))

/-- C2 counterexample: at `ptr = 0`, zero key and modifier,
`bottom_pac_bit = 39`, `tbi = true`, authentication fails (the recomputed
PAC differs on the masked bits), and the result is `2^53` — the error code
`0b01` written at shift 53, i.e. into bits [54,53] — not the value `2^52`
that writing the code into bits [53,52] (as the claim states) would give. -/
theorem C2_counterexample :
    (0 &&& _PACMask 39 true ≠
      modified_prince (Strip 0 39 true) 0 0 0 &&& _PACMask 39 true) ∧
    Auth 0 0 0 false 0 39 true false ≠
      bitClear (Strip 0 39 true) (0b11 <<< 52) ||| (0b01 <<< 52) := by
  have hmp : modified_prince (Strip 0 39 true) 0 0 0 = 11950259574844731120 := by decide
  constructor
  · rw [hmp]
    decide
  · have hA : Auth 0 0 0 false 0 39 true false = 9007199254740992 := by decide
    rw [hA]
    decide

/-- C2 (amended): when the PAC-masked bits of `ptr` differ from those of the
recomputed code, Auth returns `Strip ptr` with the 2-bit error code
(`0b01` for an A key, `0b10` for a B key) written into bits [54,53] when
`tbi` and bits [62,61] when not `tbi` (the code's shift is 53 resp. 61), and
every other bit of the stripped pointer unchanged. -/
theorem C2_amended_error_code (ptr k_hi k_lo modifier b : Nat) (b_key tbi : Bool)
    (hb : b ≤ 55)
    (hfail : ptr &&& _PACMask b tbi ≠
      modified_prince (Strip ptr b tbi) k_hi k_lo modifier &&& _PACMask b tbi) :
    ((Auth ptr k_hi k_lo b_key modifier b tbi false >>> (if tbi then 53 else 61)) &&& 0b11 =
      (if b_key then 0b10 else 0b01)) ∧
    (∀ i, i ≠ (if tbi then 53 else 61) → i ≠ (if tbi then 53 else 61) + 1 →
      (Auth ptr k_hi k_lo b_key modifier b tbi false).testBit i =
        (Strip ptr b tbi).testBit i) := by
  have hA : Auth ptr k_hi k_lo b_key modifier b tbi false =
      bitClear (Strip ptr b tbi) (3 <<< (if tbi then 53 else 61)) |||
        ((if b_key then 0b10 else 0b01) <<< (if tbi then 53 else 61)) := by
    simp [Auth, hfail]
  rw [hA]
  constructor
  · exact errField_write _ _ _ (by cases b_key <;> norm_num)
  · intro i h1 h2
    exact errField_frame _ _ _ (by cases b_key <;> norm_num) h1 h2

/-- Witness for the amended C2 at `ptr = 0`, zero key and modifier,
`bottom_pac_bit = 39`, `tbi = true`, A-family key. -/
theorem C2_amended_error_code_witness :
    (Auth 0 0 0 false 0 39 true false >>> 53) &&& 0b11 = 0b01 :=
  (C2_amended_error_code 0 0 0 0 39 false true (by norm_num) (by
    have hmp : modified_prince (Strip 0 39 true) 0 0 0 = 11950259574844731120 := by decide
    rw [hmp]
    decide)).1

/-- C3 counterexample: `kdf` builds `modifier2` by OR-ing in `0b01000`
(bit 3), not bit 4: at usage 0 it yields 8, while the claimed
`modifier1 | 0b10000` would be 16. -/
theorem C3_counterexample : kdf_modifier2 0 ≠ kdf_modifier1 0 ||| 0b10000 := by decide

/-- C3 (amended): for every 4-bit usage code, `modifier1` is
`((usage & 0b1000) << 2) | (usage & 0b111)` with bits 3 and 4 equal to 0,
`modifier2` is the same construction with bit 3 (not bit 4) forced to 1,
i.e. `modifier2 = modifier1 | 0b01000`, and `okey_lo` is computed by the two
`modified_prince` invocations keyed with `modifier2`. -/
theorem C3_amended_kdf_modifiers (usage : Nat) :
    kdf_modifier1 usage = ((usage &&& 0b1000) <<< 2) ||| (usage &&& 0b111) ∧
    (kdf_modifier1 usage).testBit 4 = false ∧
    (kdf_modifier1 usage).testBit 3 = false ∧
    kdf_modifier2 usage = kdf_modifier1 usage ||| 0b01000 ∧
    (∀ ikey_hi ikey_lo data_hi data_lo : Nat,
      (kdf ikey_hi ikey_lo data_hi data_lo usage).2 =
        modified_prince
          (modified_prince data_hi ikey_hi ikey_lo (kdf_modifier2 usage) ^^^ data_lo)
          ikey_hi ikey_lo (kdf_modifier2 usage)) := by
  have h82 : (8 : Nat).testBit 2 = false := by decide
  have h81 : (8 : Nat).testBit 1 = false := by decide
  have h74 : (7 : Nat).testBit 4 = false := by decide
  have h73 : (7 : Nat).testBit 3 = false := by decide
  refine ⟨?_, ?_, ?_, ?_, fun a c d e => rfl⟩
  · simp [kdf_modifier1]
  · simp [kdf_modifier1, Nat.testBit_or, Nat.testBit_shiftLeft, Nat.testBit_and, h82, h74]
  · simp [kdf_modifier1, Nat.testBit_or, Nat.testBit_shiftLeft, Nat.testBit_and, h81, h73]
  · apply Nat.eq_of_testBit_eq
    intro i
    simp only [kdf_modifier1, kdf_modifier2, Nat.testBit_or, Nat.zero_testBit, Bool.or_false]
    cases ((usage &&& 0b1000) <<< 2).testBit i <;> cases (8 : Nat).testBit i <;>
      cases (usage &&& 0b111).testBit i <;> rfl

/-- C7 counterexample: with `have_enhanced_pac = true`, signing refuses to
attach a code (the PAC field is zeroed), and for `bottom_pac_bit = 54`,
`tbi = true`, modifier 3 and the zero key, the recomputed code happens to
have bit 54 clear, so authenticating the signed poisoned pointer `2^54`
succeeds silently: the designated error-code field of the result is 0. -/
theorem C7_counterexample :
    ((1 <<< 54 : Nat) &&& _BitMask 54 55 ≠ 0) ∧
    ((1 <<< 54 : Nat) &&& _BitMask 54 55 ≠ _BitMask 54 55) ∧
    ((Auth (AddPAC (1 <<< 54) 0 0 3 54 true true false) 0 0 false 3 54 true false
        >>> 53) &&& 0b11) = 0 := by
  have h1 : AddPAC (1 <<< 54) 0 0 3 54 true true false = 0 := by decide
  refine ⟨by decide, by decide, ?_⟩
  rw [h1]
  have h2 : Auth 0 0 0 false 3 54 true false = 0 := by decide
  rw [h2]
  decide

/-- C7 (amended): with `have_enhanced_pac = false` and
`have_enhanced_pac2 = false`, signing a pointer whose extension bits are
neither all 0 nor all 1 flips bit `top_bit - 1` of the code, a bit that lies
inside the PAC mask, so a subsequent Auth with the same parameters always
fails and its designated 2-bit error-code field is nonzero. -/
theorem C7_amended_poison_detected (p k_hi k_lo modifier b : Nat) (tbi b_key : Bool)
    (hp : p < 2^64) (hb : b ≤ 55)
    (hpois1 : p &&& _BitMask b (if tbi then 55 else 63) ≠ 0)
    (hpois2 : p &&& _BitMask b (if tbi then 55 else 63) ≠
      _BitMask b (if tbi then 55 else 63)) :
    ((Auth (AddPAC p k_hi k_lo modifier b tbi false false) k_hi k_lo b_key modifier b tbi false
        >>> (if tbi then 53 else 61)) &&& 0b11) ≠ 0 := by
  have hpb : ((p &&& _BitMask b (if tbi then 55 else 63) != 0) &&
      (p &&& _BitMask b (if tbi then 55 else 63) != _BitMask b (if tbi then 55 else 63))) =
        true := by
    simp [hpois1, hpois2]
  have hq : AddPAC p k_hi k_lo modifier b tbi false false =
      bitClear p (_PACMask b tbi) |||
        ((modified_prince (Strip p b tbi) k_hi k_lo modifier ^^^
          (1 <<< ((if tbi then 55 else 63) - 1))) &&& _PACMask b tbi) := by
    simp [AddPAC, hpb]
  have htb : (_PACMask b tbi).testBit ((if tbi then 55 else 63) - 1) = true := by
    cases tbi
    · rw [testBit_PACMask hb]
      simp
    · have hble : b ≤ 54 := by
        by_contra hgt
        have hb55 : b = 55 := by omega
        subst hb55
        have hM : _BitMask 55 (if true then 55 else 63) = 2^55 := by decide
        rw [hM] at hpois1 hpois2
        cases h55 : p.testBit 55
        · exact hpois1 (by rw [Nat.and_two_pow, h55]; rfl)
        · exact hpois2 (by rw [Nat.and_two_pow, h55]; simp)
      rw [testBit_PACMask hb]
      have d1 : decide (b ≤ 54) = true := by simp [hble]
      simp [d1]
  have hagree : Strip (bitClear p (_PACMask b tbi) |||
      ((modified_prince (Strip p b tbi) k_hi k_lo modifier ^^^
        (1 <<< ((if tbi then 55 else 63) - 1))) &&& _PACMask b tbi)) b tbi =
      Strip p b tbi :=
    Strip_eq_of_agree hb _ (fun i him => (frame_bit him).2)
  have hcond : (modified_prince (Strip p b tbi) k_hi k_lo modifier ^^^
        (1 <<< ((if tbi then 55 else 63) - 1))) &&& _PACMask b tbi ≠
      modified_prince (Strip p b tbi) k_hi k_lo modifier &&& _PACMask b tbi := by
    intro heq
    have hbit := congrArg (fun z => z.testBit ((if tbi then 55 else 63) - 1)) heq
    simp only [Nat.testBit_and, Nat.testBit_xor, htb, Bool.and_true, Nat.one_shiftLeft,
      Nat.testBit_two_pow] at hbit
    simp at hbit
  have hA : Auth (AddPAC p k_hi k_lo modifier b tbi false false) k_hi k_lo b_key modifier b
      tbi false =
      bitClear (Strip p b tbi) (3 <<< (if tbi then 53 else 61)) |||
        ((if b_key then 0b10 else 0b01) <<< (if tbi then 53 else 61)) := by
    rw [hq]
    simp [Auth, hagree, or_masked_and, hcond]
  rw [hA, errField_write _ _ _ (by cases b_key <;> norm_num)]
  cases b_key <;> norm_num

/-- Witness for the amended C7 at the poisoned pointer `2^50` (extension
bits over [39,63] neither all 0 nor all 1), `bottom_pac_bit = 39`,
`tbi = false`. -/
theorem C7_amended_poison_detected_witness :
    ((Auth (AddPAC (1 <<< 50) 1 2 3 39 false false false) 1 2 false 3 39 false false
        >>> 61) &&& 0b11) ≠ 0 :=
  C7_amended_poison_detected (1 <<< 50) 1 2 3 39 false false (by decide) (by norm_num)
    (by decide) (by decide)

end Ptrauth
